import Mathlib

/-!
Verification development for the qubr SQL statement builder.

The Go source is embedded shallowly:

* Go interface values (the type `any`) are modelled by the inductive type
  `Value`; the type assertion `v.([]any)` becomes a match on the `vArr`
  constructor, and the nil interface is the constructor `vNil`.
* The pointer-linked predicate tree (`fieldOperationTree`, whose `and` and
  `or` fields are `*fieldOperationTree` pointers) is modelled with an
  explicit heap `Mem`: a pointer is an address (a `Nat` index into
  `Mem.cells`), the nil pointer is `Option.none`, and the in-place pointer
  writes performed by `appendToFieldOperationTree` become functional updates
  of the heap.  Walk loops carry explicit fuel bounded by the heap size,
  which is enough for every chain the builders construct.
* Struct reflection (`reflect.TypeFor`, `Field(i)`, `IsExported`, the `db`
  struct tag) is modelled by the record descriptors `StructField` and
  `RecordType`; a struct instance is the list of its field values in
  declaration order.
* Each Go builder method with a value receiver becomes a function from the
  builder (and, where the method can touch the heap, the heap) to the new
  builder (and heap).  `BuildQuery`, which in Go returns the triple
  `(query string, args []any, err error)`, returns
  `String × List Value × Option QubrError`.
-/

/-- Model of the Go `any` values that flow through the builder: scalars,
the nil interface, and `[]any` slices. -/
inductive Value where
  | vNil
  | vBool (b : Bool)
  | vInt (n : Int)
  | vNat (n : Nat)
  | vStr (s : String)
  | vArr (vs : List Value)

/-- The type assertion `f.ValueRaw.([]any)` succeeds exactly on `vArr`. -/
def Value.isArr : Value → Bool
  | .vArr _ => true
  | _ => false

/-- The slice obtained from the type assertion `f.ValueRaw.([]any)`:
the elements for a `vArr`, and the nil slice (empty list) when the
assertion fails. -/
def Value.arrElems : Value → List Value
  | .vArr vs => vs
  | _ => []

/-- Whether the value is the nil interface, as Go `==` against the zero
`any` field sees it. -/
def Value.isNilInterface : Value → Bool
  | .vNil => true
  | _ => false

/-- `Operator` from field_operation.go: the ANSI SQL comparison operators. -/
inductive Operator where
  | operatorEqual
  | operatorNotEqual
  | operatorGreaterThan
  | operatorLessThan
  | operatorGreaterThanOrEqual
  | operatorLessThanOrEqual
  | operatorIn
  | operatorNotIn
deriving DecidableEq

/-- `Operator.String` from field_operation.go. -/
def Operator.String : Operator → String
  | .operatorEqual => "="
  | .operatorNotEqual => "<>"
  | .operatorGreaterThan => ">"
  | .operatorLessThan => "<"
  | .operatorGreaterThanOrEqual => ">="
  | .operatorLessThanOrEqual => "<="
  | .operatorIn => "IN"
  | .operatorNotIn => "NOT IN"

/-- `FieldOperation` from field_operation.go. -/
structure FieldOperation where
  operator : Operator
  fieldName : String
  valueRaw : Value

/-- Go comparison of a `FieldOperation` against the zero value
`FieldOperation{}` (operator 0, empty name, nil interface). -/
def FieldOperation.isZero (f : FieldOperation) : Bool :=
  f.operator = Operator.operatorEqual && f.fieldName = "" && f.valueRaw.isNilInterface

/-- `strings.Repeat s n`. -/
def strRepeat (s : String) : Nat → String
  | 0 => ""
  | n + 1 => s ++ strRepeat s n

/-- `strings.TrimSuffix`: drop the suffix when present, else return the
string unchanged. -/
def trimSuffix (s suf : String) : String :=
  if suf.data.isSuffixOf s.data then { data := s.data.take (s.data.length - suf.data.length) }
  else s

/-- `FieldOperation.queryData` from field_operation.go: render the
placeholder fragment and the positional argument list of one predicate. -/
def FieldOperation.queryData (f : FieldOperation) : String × List Value :=
  let argArr := f.valueRaw.arrElems
  let isArr := f.valueRaw.isArr
  if isArr = false ∧ f.operator ≠ Operator.operatorIn ∧ f.operator ≠ Operator.operatorNotIn then
    ("\"" ++ f.fieldName ++ "\" " ++ f.operator.String ++ " " ++ "?", [f.valueRaw])
  else
    let points := strRepeat "?, " argArr.length
    let placeholders := "(" ++ trimSuffix points ", " ++ ")"
    ("\"" ++ f.fieldName ++ "\" " ++ f.operator.String ++ " " ++ placeholders, argArr)

/-- `Equal` from field_operation.go. -/
def Equal (field : String) (v : Value) : FieldOperation :=
  ⟨Operator.operatorEqual, field, v⟩

/-- `NotEqual` from field_operation.go. -/
def NotEqual (field : String) (v : Value) : FieldOperation :=
  ⟨Operator.operatorNotEqual, field, v⟩

/-- `GreaterThan` from field_operation.go. -/
def GreaterThan (field : String) (v : Value) : FieldOperation :=
  ⟨Operator.operatorGreaterThan, field, v⟩

/-- `LessThan` from field_operation.go. -/
def LessThan (field : String) (v : Value) : FieldOperation :=
  ⟨Operator.operatorLessThan, field, v⟩

/-- `GreaterThanOrEqual` from field_operation.go. -/
def GreaterThanOrEqual (field : String) (v : Value) : FieldOperation :=
  ⟨Operator.operatorGreaterThanOrEqual, field, v⟩

/-- `LessThanOrEqual` from field_operation.go. -/
def LessThanOrEqual (field : String) (v : Value) : FieldOperation :=
  ⟨Operator.operatorLessThanOrEqual, field, v⟩

/-- `IsTrue` from field_operation.go. -/
def IsTrue (field : String) : FieldOperation :=
  Equal field (Value.vBool true)

/-- `IsFalse` from field_operation.go. -/
def IsFalse (field : String) : FieldOperation :=
  Equal field (Value.vBool false)

/-- `In` from field_operation.go: the variadic values become one `[]any`. -/
def In (field : String) (values : List Value) : FieldOperation :=
  ⟨Operator.operatorIn, field, Value.vArr values⟩

/-- `NotIn` from field_operation.go. -/
def NotIn (field : String) (values : List Value) : FieldOperation :=
  ⟨Operator.operatorNotIn, field, Value.vArr values⟩

/-- The error values of errors.go together with `ErrNoSetStatement`
(referenced by update_builder.go) and the `ErrInvalidTableName` struct. -/
inductive QubrError where
  | ErrTableNameAlreadySet
  | ErrDoubleWhereClause
  | ErrMissingWhereClause
  | ErrLimitAlreadySet
  | ErrNoInsertValues
  | ErrNoRows
  | ErrNoSetStatement
  | ErrInvalidTableName (name : String)
deriving DecidableEq

/-- `fieldOperationTree` from field_operation.go.  The Go fields
`or, and : *fieldOperationTree` are pointers; here a pointer is an
optional heap address. -/
structure fieldOperationTree where
  op : FieldOperation
  or : Option Nat
  and : Option Nat

/-- `emptyFieldOperationTree`: the zero value of the struct. -/
def emptyFieldOperationTree : fieldOperationTree :=
  ⟨⟨Operator.operatorEqual, "", Value.vNil⟩, none, none⟩

/-- The Go struct comparison `t == emptyFieldOperationTree`: both pointers
nil and the op equal to the zero `FieldOperation`. -/
def fieldOperationTree.eqEmpty (t : fieldOperationTree) : Bool :=
  t.or.isNone && t.and.isNone && t.op.isZero

/-- The heap holding the `fieldOperationTree` nodes that Go allocates with
`&fieldOperationTree{op: op}`; an address is an index into `cells`. -/
structure Mem where
  cells : List fieldOperationTree

/-- Dereference an address; `none` models a dangling address, which no
builder-reachable state produces. -/
def Mem.get (m : Mem) (a : Nat) : Option fieldOperationTree :=
  m.cells[a]?

/-- Overwrite the node stored at an address (a pointer write). -/
def Mem.set (m : Mem) (a : Nat) (c : fieldOperationTree) : Mem :=
  ⟨m.cells.set a c⟩

/-- Allocate a fresh node, returning the new heap and the new address. -/
def Mem.alloc (m : Mem) (c : fieldOperationTree) : Mem × Nat :=
  (⟨m.cells ++ [c]⟩, m.cells.length)

/-- The `assign` closures passed by `And` and `Or`: set the `and`
(when `isAnd` is true) or the `or` pointer of a node. -/
def setChild (c : fieldOperationTree) (isAnd : Bool) (a : Nat) : fieldOperationTree :=
  if isAnd then { c with and := some a } else { c with or := some a }

/-- The walk of `appendToFieldOperationTree`: from address `a`, follow the
`and` pointer when set, else the `or` pointer, until a node with no child
is reached; the fuel (heap size at the call) covers every chain the
builders build. -/
def bottomCell (m : Mem) (a : Nat) : Nat → Nat
  | 0 => a
  | fuel + 1 =>
    match m.get a with
    | none => a
    | some c =>
      match c.and with
      | some a2 => bottomCell m a2 fuel
      | none =>
        match c.or with
        | some a2 => bottomCell m a2 fuel
        | none => a

/-- `appendToFieldOperationTree` from field_operation.go, specialised to
the only two closures the builders pass (`next.and = &{op}` and
`next.or = &{op}`, selected by `isAnd`).  `opTree` is the root value the
builder holds inline (Go passes `&b.fieldOperationTree`); the result is
the possibly updated heap and root value, or `ErrMissingWhereClause` on
an empty tree. -/
def appendToFieldOperationTree (m : Mem) (opTree : fieldOperationTree) (isAnd : Bool)
    (op : FieldOperation) : Except QubrError (Mem × fieldOperationTree) :=
  if opTree.eqEmpty then .error QubrError.ErrMissingWhereClause
  else
    let (m1, na) := m.alloc ⟨op, none, none⟩
    match opTree.and with
    | some a =>
      let b := bottomCell m a m.cells.length
      match m.get b with
      | some bc => .ok (m1.set b (setChild bc isAnd na), opTree)
      | none => .ok (m1, opTree)
    | none =>
      match opTree.or with
      | some a =>
        let b := bottomCell m a m.cells.length
        match m.get b with
        | some bc => .ok (m1.set b (setChild bc isAnd na), opTree)
        | none => .ok (m1, opTree)
      | none => .ok (m1, setChild opTree isAnd na)

/-- The render walk of `fieldOperationTree.buildQuery`: starting below the
node `c`, follow `and` before `or`, emitting the connective and the
rendered predicate of every node passed. -/
def renderFrom (m : Mem) : fieldOperationTree → Nat → String × List Value
  | _, 0 => ("", [])
  | c, fuel + 1 =>
    match c.and with
    | some a =>
      match m.get a with
      | none => ("", [])
      | some c2 =>
        let qd := c2.op.queryData
        let r := renderFrom m c2 fuel
        (" AND " ++ qd.1 ++ r.1, qd.2 ++ r.2)
    | none =>
      match c.or with
      | some a =>
        match m.get a with
        | none => ("", [])
        | some c2 =>
          let qd := c2.op.queryData
          let r := renderFrom m c2 fuel
          (" OR " ++ qd.1 ++ r.1, qd.2 ++ r.2)
      | none => ("", [])

/-- `fieldOperationTree.buildQuery` from field_operation.go: the rendered
WHERE clause and its arguments, or `("", [])` on the empty sentinel. -/
def fieldOperationTree.buildQuery (t : fieldOperationTree) (m : Mem) : String × List Value :=
  if t.eqEmpty then ("", [])
  else
    let qd := t.op.queryData
    let r := renderFrom m t (m.cells.length + 1)
    (" WHERE " ++ qd.1 ++ r.1, qd.2 ++ r.2)

/-- One struct field as the reflection layer sees it: name, optional
`db` tag, exportedness. -/
structure StructField where
  name : String
  dbTag : Option String
  exported : Bool

/-- A record type `T`: its type name and its fields in declaration order. -/
structure RecordType where
  name : String
  fields : List StructField

/-- `structFieldName` from struct_field.go: the `db` tag when present,
else the field name. -/
def structFieldName (field : StructField) : String :=
  match field.dbTag with
  | some dbName => dbName
  | none => field.name

/-- `tableName` from the table-name source file: the record type the
builder was created for, and the explicitly set schema/table strings. -/
structure tableName where
  forType : Option RecordType
  schema : String
  tableName : String

/-- Character-level splitter: `splitChars sep l` cuts `l` at every
occurrence of `sep`, keeping empty pieces, exactly like Go
`strings.Split` with a one-character separator. -/
def splitChars (sep : Char) : List Char → List (List Char)
  | [] => [[]]
  | x :: xs =>
    let r := splitChars sep xs
    if x = sep then [] :: r else (x :: r.headD []) :: r.tail

/-- `strings.Split s sep` for a one-character separator (the source only
splits on the dot). -/
def stringSplit (s : String) (sep : Char) : List String :=
  (splitChars sep s.data).map (fun l => { data := l })

/-- `newTableNameFromString`: split on the dot; empty input or more than
two parts is an invalid table name. -/
def newTableNameFromString (s : String) : Except QubrError tableName :=
  let parts := stringSplit s '.'
  if s = "" ∨ parts.length > 2 then .error (QubrError.ErrInvalidTableName s)
  else
    let schema := if parts.length > 1 then parts.headD "" else ""
    .ok ⟨none, schema, parts.getLastD ""⟩

/-- The Go method `String` on `tableName` (named apart to avoid the field
accessor): quoted type name when nothing explicit is set, else quoted
schema-qualified or bare table name.  (On the nil `forType` Go would
panic; that state is unreachable from the builders, and the type name is
modelled as empty there.) -/
def tableNameString (t : tableName) : String :=
  if t.schema = "" ∧ t.tableName = "" then
    "\"" ++ (match t.forType with | some rt => rt.name | none => "") ++ "\""
  else if t.schema ≠ "" then "\"" ++ t.schema ++ "\".\"" ++ t.tableName ++ "\""
  else "\"" ++ t.tableName ++ "\""

/-- `SelectBuilder` from the select-builder source file.  `rt` reifies the
Go type parameter `T`; `fromT` is the Go field `from` (a Lean keyword). -/
structure SelectBuilder where
  rt : RecordType
  fromT : tableName
  fieldOperationTree : fieldOperationTree
  limit : Option Nat
  err : Option QubrError

/-- `Select[T]()`: table name derived from the record type, empty tree,
no limit, no error. -/
def Select (rt : RecordType) : SelectBuilder :=
  ⟨rt, ⟨some rt, "", ""⟩, emptyFieldOperationTree, none, none⟩

/-- `SelectBuilder.From`. -/
def SelectBuilder.From (b : SelectBuilder) (s : String) : SelectBuilder :=
  if b.fromT.schema ≠ "" ∧ b.fromT.tableName ≠ "" then
    { b with err := some QubrError.ErrTableNameAlreadySet }
  else
    match newTableNameFromString s with
    | .error e => { b with err := some e }
    | .ok t => { b with fromT := t }

/-- `SelectBuilder.Where`. -/
def SelectBuilder.Where (b : SelectBuilder) (op : FieldOperation) : SelectBuilder :=
  if b.fieldOperationTree.eqEmpty = false then
    { b with err := some QubrError.ErrDoubleWhereClause }
  else
    { b with fieldOperationTree := { b.fieldOperationTree with op := op } }

/-- `SelectBuilder.And`: append through `appendToFieldOperationTree`,
recording the error when the tree has no root yet. -/
def SelectBuilder.And (b : SelectBuilder) (m : Mem) (op : FieldOperation) :
    Mem × SelectBuilder :=
  match appendToFieldOperationTree m b.fieldOperationTree true op with
  | .error e => (m, { b with err := some e })
  | .ok (m2, root) => (m2, { b with fieldOperationTree := root })

/-- `SelectBuilder.Or`. -/
def SelectBuilder.Or (b : SelectBuilder) (m : Mem) (op : FieldOperation) :
    Mem × SelectBuilder :=
  match appendToFieldOperationTree m b.fieldOperationTree false op with
  | .error e => (m, { b with err := some e })
  | .ok (m2, root) => (m2, { b with fieldOperationTree := root })

/-- `SelectBuilder.Limit`. -/
def SelectBuilder.Limit (b : SelectBuilder) (n : Nat) : SelectBuilder :=
  if b.limit.isSome then { b with err := some QubrError.ErrLimitAlreadySet }
  else { b with limit := some n }

/-- The projection block of `SelectBuilder.BuildQuery`: quoted exported
field names (the field name itself, not the `db` tag), comma separated. -/
def selectFields (rt : RecordType) : String :=
  trimSuffix
    (rt.fields.foldl
      (fun acc f => if f.exported then acc ++ ("\"" ++ f.name ++ "\", ") else acc) "")
    ", "

/-- `SelectBuilder.BuildQuery`: the Go triple `(query, args, err)`. -/
def SelectBuilder.BuildQuery (b : SelectBuilder) (m : Mem) :
    String × List Value × Option QubrError :=
  match b.err with
  | some e => ("", [], some e)
  | none =>
    let fields := selectFields b.rt
    let tn := tableNameString b.fromT
    let wq := b.fieldOperationTree.buildQuery m
    let ls :=
      match b.limit with
      | some n => (" LIMIT ?", wq.2 ++ [Value.vNat n])
      | none => ("", wq.2)
    ("SELECT " ++ fields ++ " FROM " ++ tn ++ wq.1 ++ ls.1 ++ ";", ls.2, none)

/-- `DeleteBuilder` from the delete-builder source file. -/
structure DeleteBuilder where
  rt : RecordType
  fromT : tableName
  fieldOperationTree : fieldOperationTree
  limit : Option Nat
  err : Option QubrError

/-- `Delete[T]()`. -/
def Delete (rt : RecordType) : DeleteBuilder :=
  ⟨rt, ⟨some rt, "", ""⟩, emptyFieldOperationTree, none, none⟩

/-- `DeleteBuilder.From`. -/
def DeleteBuilder.From (b : DeleteBuilder) (s : String) : DeleteBuilder :=
  if b.fromT.schema ≠ "" ∧ b.fromT.tableName ≠ "" then
    { b with err := some QubrError.ErrTableNameAlreadySet }
  else
    match newTableNameFromString s with
    | .error e => { b with err := some e }
    | .ok t => { b with fromT := t }

/-- `DeleteBuilder.Where`. -/
def DeleteBuilder.Where (b : DeleteBuilder) (op : FieldOperation) : DeleteBuilder :=
  if b.fieldOperationTree.eqEmpty = false then
    { b with err := some QubrError.ErrDoubleWhereClause }
  else
    { b with fieldOperationTree := { b.fieldOperationTree with op := op } }

/-- `DeleteBuilder.And`. -/
def DeleteBuilder.And (b : DeleteBuilder) (m : Mem) (op : FieldOperation) :
    Mem × DeleteBuilder :=
  match appendToFieldOperationTree m b.fieldOperationTree true op with
  | .error e => (m, { b with err := some e })
  | .ok (m2, root) => (m2, { b with fieldOperationTree := root })

/-- `DeleteBuilder.Or`. -/
def DeleteBuilder.Or (b : DeleteBuilder) (m : Mem) (op : FieldOperation) :
    Mem × DeleteBuilder :=
  match appendToFieldOperationTree m b.fieldOperationTree false op with
  | .error e => (m, { b with err := some e })
  | .ok (m2, root) => (m2, { b with fieldOperationTree := root })

/-- `DeleteBuilder.Limit`. -/
def DeleteBuilder.Limit (b : DeleteBuilder) (n : Nat) : DeleteBuilder :=
  if b.limit.isSome then { b with err := some QubrError.ErrLimitAlreadySet }
  else { b with limit := some n }

/-- `DeleteBuilder.BuildQuery`. -/
def DeleteBuilder.BuildQuery (b : DeleteBuilder) (m : Mem) :
    String × List Value × Option QubrError :=
  match b.err with
  | some e => ("", [], some e)
  | none =>
    let tn := tableNameString b.fromT
    let wq := b.fieldOperationTree.buildQuery m
    let ls :=
      match b.limit with
      | some n => (" LIMIT ?", wq.2 ++ [Value.vNat n])
      | none => ("", wq.2)
    ("DELETE FROM " ++ tn ++ wq.1 ++ ls.1 ++ ";", ls.2, none)

/-- `UpdateBuilder` from update_builder.go.  `literalValue` is the Go
`*T`; a `T` instance is its field values in declaration order. -/
structure UpdateBuilder where
  rt : RecordType
  fromT : tableName
  literalValue : Option (List Value)
  fieldOperationTree : fieldOperationTree
  err : Option QubrError

/-- `Update[T]()`. -/
def Update (rt : RecordType) : UpdateBuilder :=
  ⟨rt, ⟨some rt, "", ""⟩, none, emptyFieldOperationTree, none⟩

/-- `UpdateBuilder.Into`. -/
def UpdateBuilder.Into (b : UpdateBuilder) (s : String) : UpdateBuilder :=
  if b.fromT.schema ≠ "" ∧ b.fromT.tableName ≠ "" then
    { b with err := some QubrError.ErrTableNameAlreadySet }
  else
    match newTableNameFromString s with
    | .error e => { b with err := some e }
    | .ok t => { b with fromT := t }

/-- `UpdateBuilder.SetStruct`: unconditionally store the record. -/
def UpdateBuilder.SetStruct (b : UpdateBuilder) (t : List Value) : UpdateBuilder :=
  { b with literalValue := some t }

/-- `UpdateBuilder.Where`. -/
def UpdateBuilder.Where (b : UpdateBuilder) (op : FieldOperation) : UpdateBuilder :=
  if b.fieldOperationTree.eqEmpty = false then
    { b with err := some QubrError.ErrDoubleWhereClause }
  else
    { b with fieldOperationTree := { b.fieldOperationTree with op := op } }

/-- `UpdateBuilder.And`. -/
def UpdateBuilder.And (b : UpdateBuilder) (m : Mem) (op : FieldOperation) :
    Mem × UpdateBuilder :=
  match appendToFieldOperationTree m b.fieldOperationTree true op with
  | .error e => (m, { b with err := some e })
  | .ok (m2, root) => (m2, { b with fieldOperationTree := root })

/-- `UpdateBuilder.Or`. -/
def UpdateBuilder.Or (b : UpdateBuilder) (m : Mem) (op : FieldOperation) :
    Mem × UpdateBuilder :=
  match appendToFieldOperationTree m b.fieldOperationTree false op with
  | .error e => (m, { b with err := some e })
  | .ok (m2, root) => (m2, { b with fieldOperationTree := root })

/-- The SET block of `UpdateBuilder.BuildQuery`: for each field index,
skip unexported fields, emit the resolved column name (through
`structFieldName`) with a placeholder, and take the field value at that
same index. -/
def updateSetClause (rt : RecordType) (vals : List Value) : String × List Value :=
  let folded :=
    (List.range rt.fields.length).foldl
      (fun (acc : String × List Value) i =>
        let f := rt.fields.getD i ⟨"", none, false⟩
        if f.exported then
          (acc.1 ++ ("\"" ++ structFieldName f ++ "\" = ?, "),
           acc.2 ++ [vals.getD i Value.vNil])
        else acc)
      (" SET ", [])
  (trimSuffix folded.1 ", ", folded.2)

/-- `UpdateBuilder.BuildQuery`. -/
def UpdateBuilder.BuildQuery (b : UpdateBuilder) (m : Mem) :
    String × List Value × Option QubrError :=
  match b.err with
  | some e => ("", [], some e)
  | none =>
    let tn := tableNameString b.fromT
    match b.literalValue with
    | none => ("", [], some QubrError.ErrNoSetStatement)
    | some vals =>
      let sa := updateSetClause b.rt vals
      let wq := b.fieldOperationTree.buildQuery m
      ("UPDATE " ++ tn ++ sa.1 ++ wq.1 ++ ";", sa.2 ++ wq.2, none)

/-- `InsertBuilder` from the insert-builder source file. -/
structure InsertBuilder where
  rt : RecordType
  into : tableName
  literalValues : List (List Value)
  err : Option QubrError

/-- `Insert[T]()` (primed: core Lean already has a class named Insert). -/
def Insert' (rt : RecordType) : InsertBuilder :=
  ⟨rt, ⟨some rt, "", ""⟩, [], none⟩

/-- `InsertBuilder.Into`. -/
def InsertBuilder.Into (b : InsertBuilder) (s : String) : InsertBuilder :=
  if b.into.schema ≠ "" ∧ b.into.tableName ≠ "" then
    { b with err := some QubrError.ErrTableNameAlreadySet }
  else
    match newTableNameFromString s with
    | .error e => { b with err := some e }
    | .ok t => { b with into := t }

/-- `InsertBuilder.Values`: replace the payload rows. -/
def InsertBuilder.Values (b : InsertBuilder) (t : List (List Value)) : InsertBuilder :=
  { b with literalValues := t }

/-- The per-row argument extraction of `InsertBuilder.BuildQuery`: the Go
loop `for i := range numExported` reads `insertValue.Field(i)` — the first
`numExported` fields BY RAW INDEX, not the exported fields. -/
def insertRowArgs (numExported : Nat) (v : List Value) : List Value :=
  (List.range numExported).map (fun i => v.getD i Value.vNil)

/-- The VALUES block of `InsertBuilder.BuildQuery`: one placeholder group
per row, comma separated, with the row arguments flattened in order. -/
def insertRows (placeholders : String) (numExported : Nat) :
    List (List Value) → String × List Value
  | [] => ("", [])
  | [v] => (placeholders, insertRowArgs numExported v)
  | v :: rest =>
    let r := insertRows placeholders numExported rest
    (placeholders ++ ", " ++ r.1, insertRowArgs numExported v ++ r.2)

/-- `InsertBuilder.BuildQuery`. -/
def InsertBuilder.BuildQuery (b : InsertBuilder) :
    String × List Value × Option QubrError :=
  match b.err with
  | some e => ("", [], some e)
  | none =>
    let tn := tableNameString b.into
    if b.literalValues.length = 0 then ("", [], some QubrError.ErrNoInsertValues)
    else
      let numExported := (b.rt.fields.filter (fun f => f.exported)).length
      let placeholders := "(" ++ trimSuffix (strRepeat "?, " numExported) ", " ++ ")"
      let ga := insertRows placeholders numExported b.literalValues
      ("INSERT INTO " ++ tn ++ " VALUES " ++ ga.1 ++ ";", ga.2, none)

/-! ## The shape of a builder-built predicate chain

`chainRep m c lo ps` says: below the node `c`, the heap `m` holds a
linear chain with one node per element of `ps`, linked through the
`and` pointer for a `(true, op)` element and through the `or` pointer
for a `(false, op)` element, with strictly increasing addresses all at
least `lo`.  This is exactly the shape `Where` followed by a sequence
of `And`/`Or` calls produces. -/
def chainRep (m : Mem) : fieldOperationTree → Nat → List (Bool × FieldOperation) → Prop
  | c, _, [] => c.and = none ∧ c.or = none
  | c, lo, (true, op) :: rest => ∃ a c2, lo ≤ a ∧ m.get a = some c2 ∧ c2.op = op ∧
      c.and = some a ∧ c.or = none ∧ chainRep m c2 (a + 1) rest
  | c, lo, (false, op) :: rest => ∃ a c2, lo ≤ a ∧ m.get a = some c2 ∧ c2.op = op ∧
      c.or = some a ∧ c.and = none ∧ chainRep m c2 (a + 1) rest

/-- The fragment and arguments contributed by the calls after the root:
one connective and one rendered predicate per call, in call order. -/
def tailRender : List (Bool × FieldOperation) → String × List Value
  | [] => ("", [])
  | (br, op) :: rest =>
    let qd := op.queryData
    let r := tailRender rest
    ((if br then " AND " else " OR ") ++ qd.1 ++ r.1, qd.2 ++ r.2)

/-- The WHERE fragment and argument list a `Where op0` call followed by
the given `And`/`Or` calls should produce: one rendered predicate per
call, in call order. -/
def renderedChain (op0 : FieldOperation) (calls : List (Bool × FieldOperation)) :
    String × List Value :=
  (" WHERE " ++ (op0.queryData).1 ++ (tailRender calls).1,
   (op0.queryData).2 ++ (tailRender calls).2)

/-- Apply a sequence of `And` (true) / `Or` (false) calls to a select
builder, threading the heap. -/
def applySelCalls (m : Mem) (b : SelectBuilder) :
    List (Bool × FieldOperation) → Mem × SelectBuilder
  | [] => (m, b)
  | (br, op) :: rest =>
    let s := if br then b.And m op else b.Or m op
    applySelCalls s.1 s.2 rest

/-- Invariant of a select builder built by one `Where` and a sequence of
`And`/`Or` calls: untouched table/limit/error state, root predicate
`op0`, and a heap chain matching the calls made so far. -/
def SelChain (rt : RecordType) (op0 : FieldOperation) (m : Mem) (b : SelectBuilder)
    (ps : List (Bool × FieldOperation)) : Prop :=
  b.rt = rt ∧ b.fromT = ⟨some rt, "", ""⟩ ∧ b.limit = none ∧ b.err = none ∧
  b.fieldOperationTree.op = op0 ∧ chainRep m b.fieldOperationTree 0 ps

/-! ## Concrete fixtures shared by several claims -/

/-- A two-field record type used by several concrete evaluations. -/
def bunnyRT : RecordType := ⟨"bunny", [⟨"Name", none, true⟩, ⟨"EarLength", none, true⟩]⟩

/-- Base builder of the branching scenario: one Where plus one And, so
the chain already owns one heap node. -/
def c2base : Mem × SelectBuilder :=
  ((Select ⟨"bunny", [⟨"Name", none, true⟩]⟩).Where (Equal "A" (Value.vInt 1))).And ⟨[]⟩
    (Equal "B" (Value.vInt 2))

/-- Branching off the base: `Or` on the base builder, which walks into
the shared heap node and writes its `or` pointer. -/
def c2branch : Mem × SelectBuilder :=
  c2base.2.Or c2base.1 (Equal "C" (Value.vInt 3))

/-- Record type whose unexported field precedes its exported one. -/
def c5rt : RecordType := ⟨"bunny", [⟨"age", none, false⟩, ⟨"Name", none, true⟩]⟩

/-- Record type with a db-tag override on its only field. -/
def c6rt : RecordType := ⟨"T", [⟨"X", some "y", true⟩]⟩

/-! ## Sanity checks of the embedding against the repository test data -/

example : (Equal "Name" (Value.vStr "captain spud")).queryData =
    ("\"Name\" = ?", [Value.vStr "captain spud"]) := rfl

example : (In "FavoriteFood" [Value.vStr "kale", Value.vStr "broccoli"]).queryData =
    ("\"FavoriteFood\" IN (?, ?)", [Value.vStr "kale", Value.vStr "broccoli"]) := rfl

example : (In "Food" []).queryData = ("\"Food\" IN ()", []) := rfl

example : newTableNameFromString "bunny_land.bunnies" =
    .ok ⟨none, "bunny_land", "bunnies"⟩ := rfl

example : newTableNameFromString "" = .error (QubrError.ErrInvalidTableName "") := rfl

example : tableNameString ⟨none, "bunny_land", "bunnies"⟩ = "\"bunny_land\".\"bunnies\"" := rfl

/-! ## Helper lemmas -/

/-- Removing a suffix that is literally there returns the prefix. -/
theorem trimSuffix_append (a suf : String) : trimSuffix (a ++ suf) suf = a := by
  have hsuf : suf.data.isSuffixOf (a ++ suf).data = true := by
    rw [String.data_append, List.isSuffixOf_iff_suffix]
    exact List.suffix_append a.data suf.data
  unfold trimSuffix
  rw [hsuf]
  simp only [if_true, String.data_append]
  have h2 : (a.data ++ suf.data).length - suf.data.length = a.data.length := by
    rw [List.length_append, Nat.add_sub_cancel]
  rw [h2, List.take_left]

/-- A chain of length `k` starting at addresses ≥ lo fits in the heap. -/
theorem chainRep_length :
    ∀ (ps : List (Bool × FieldOperation)) (m : Mem) (c : fieldOperationTree) (lo : Nat),
      chainRep m c lo ps → ps.length ≤ m.cells.length - lo := by
  intro ps
  induction ps with
  | nil => intro m c lo _; exact Nat.zero_le _
  | cons p rest ih =>
    intro m c lo h
    obtain ⟨br, op⟩ := p
    cases br
    · obtain ⟨a, c2, hlo, hget, _, _, _, hrest⟩ := h
      have ha : a < m.cells.length := by
        have := List.getElem?_eq_some_iff.mp hget
        exact this.1
      have := ih m c2 (a + 1) hrest
      simp only [List.length_cons]
      omega
    · obtain ⟨a, c2, hlo, hget, _, _, _, hrest⟩ := h
      have ha : a < m.cells.length := by
        have := List.getElem?_eq_some_iff.mp hget
        exact this.1
      have := ih m c2 (a + 1) hrest
      simp only [List.length_cons]
      omega

/-- With enough fuel, the render walk below a chain node emits exactly
the chain: one connective and one predicate per element, in order. -/
theorem renderFrom_spec :
    ∀ (ps : List (Bool × FieldOperation)) (m : Mem) (c : fieldOperationTree) (lo fuel : Nat),
      chainRep m c lo ps → ps.length ≤ fuel → renderFrom m c fuel = tailRender ps := by
  intro ps
  induction ps with
  | nil =>
    intro m c lo fuel h _
    obtain ⟨hand, hor⟩ := h
    cases fuel with
    | zero => rfl
    | succ f => simp [renderFrom, hand, hor, tailRender]
  | cons p rest ih =>
    intro m c lo fuel h hfuel
    obtain ⟨br, op⟩ := p
    cases fuel with
    | zero => simp at hfuel
    | succ f =>
      have hf : rest.length ≤ f := by simp only [List.length_cons] at hfuel; omega
      cases br
      · obtain ⟨a, c2, hlo, hget, hop, hor, hand, hrest⟩ := h
        simp only [renderFrom, hand, hor, hget]
        rw [ih m c2 (a + 1) f hrest hf, hop]
        simp [tailRender]
      · obtain ⟨a, c2, hlo, hget, hop, hand, hor, hrest⟩ := h
        simp only [renderFrom, hand, hor, hget]
        rw [ih m c2 (a + 1) f hrest hf, hop]
        simp [tailRender]

/-- An address that dereferences is in bounds. -/
theorem Mem.get_lt {m : Mem} {a : Nat} {c : fieldOperationTree} (h : m.get a = some c) :
    a < m.cells.length :=
  (List.getElem?_eq_some_iff.mp h).1

/-- Reading below the old length is unaffected by an allocation. -/
theorem Mem.get_push (m : Mem) (n : fieldOperationTree) (a : Nat) (h : a < m.cells.length) :
    Mem.get ⟨m.cells ++ [n]⟩ a = m.get a :=
  List.getElem?_append_left h

/-- Reading the freshly allocated cell. -/
theorem Mem.get_push_last (m : Mem) (n : fieldOperationTree) :
    Mem.get ⟨m.cells ++ [n]⟩ m.cells.length = some n :=
  List.getElem?_concat_length _ _

/-- Reading away from a pointer write sees the old heap. -/
theorem Mem.get_set_ne (m : Mem) (b : Nat) (x : fieldOperationTree) (a : Nat) (h : b ≠ a) :
    (m.set b x).get a = m.get a :=
  List.getElem?_set_ne h

/-- Reading the written cell. -/
theorem Mem.get_set_eq (m : Mem) (b : Nat) (x : fieldOperationTree) (h : b < m.cells.length) :
    (m.set b x).get b = some x :=
  List.getElem?_set_self h

/-- `setChild` never changes the predicate of a node. -/
theorem setChild_op (c : fieldOperationTree) (br : Bool) (a : Nat) :
    (setChild c br a).op = c.op := by
  cases br <;> rfl

/-- Walking to the bottom of a chain from the first chain node, writing
the new terminal node there, and allocating it, extends the represented
chain by exactly the appended element. -/
theorem bottom_append (br : Bool) (op : FieldOperation) :
    ∀ (rest : List (Bool × FieldOperation)) (m : Mem) (a : Nat) (c2 : fieldOperationTree)
      (fuel : Nat),
      m.get a = some c2 → chainRep m c2 (a + 1) rest → rest.length < fuel →
      a ≤ bottomCell m a fuel ∧
      ∃ bc, m.get (bottomCell m a fuel) = some bc ∧ bc.and = none ∧ bc.or = none ∧
        ∃ c2',
          (Mem.set ⟨m.cells ++ [⟨op, none, none⟩]⟩ (bottomCell m a fuel)
              (setChild bc br m.cells.length)).get a = some c2' ∧
          c2'.op = c2.op ∧
          chainRep (Mem.set ⟨m.cells ++ [⟨op, none, none⟩]⟩ (bottomCell m a fuel)
              (setChild bc br m.cells.length)) c2' (a + 1) (rest ++ [(br, op)]) := by
  intro rest
  induction rest with
  | nil =>
    intro m a c2 fuel hget hrep hfuel
    have hrep' : c2.and = none ∧ c2.or = none := hrep
    obtain ⟨hand, hor⟩ := hrep'
    obtain ⟨f, rfl⟩ : ∃ f, fuel = f + 1 := ⟨fuel - 1, by omega⟩
    have hbot : bottomCell m a (f + 1) = a := by
      simp [bottomCell, hget, hand, hor]
    rw [hbot]
    have ha : a < m.cells.length := Mem.get_lt hget
    refine ⟨Nat.le_refl a, c2, hget, hand, hor, setChild c2 br m.cells.length, ?_, ?_, ?_⟩
    · exact Mem.get_set_eq _ a _ (by simp; omega)
    · exact setChild_op c2 br m.cells.length
    · have hlast : (Mem.set ⟨m.cells ++ [(⟨op, none, none⟩ : fieldOperationTree)]⟩ a
          (setChild c2 br m.cells.length)).get m.cells.length =
          some ⟨op, none, none⟩ := by
        rw [Mem.get_set_ne _ _ _ _ (by omega), Mem.get_push_last]
      cases br with
      | false =>
        exact ⟨m.cells.length, ⟨op, none, none⟩, by omega, hlast, rfl,
          by simp [setChild], by simp [setChild, hand], by exact ⟨rfl, rfl⟩⟩
      | true =>
        exact ⟨m.cells.length, ⟨op, none, none⟩, by omega, hlast, rfl,
          by simp [setChild], by simp [setChild, hor], by exact ⟨rfl, rfl⟩⟩
  | cons p rest2 ih =>
    intro m a c2 fuel hget hrep hfuel
    obtain ⟨br2, op2⟩ := p
    obtain ⟨f, rfl⟩ : ∃ f, fuel = f + 1 := ⟨fuel - 1, by omega⟩
    have hf2 : rest2.length < f := by
      simp only [List.length_cons] at hfuel; omega
    cases br2
    · -- or-link from c2 to the next node
      obtain ⟨a2, c3, hlo2, hget2, hop2, hor2, hand2, hrest2⟩ := hrep
      have hbot : bottomCell m a (f + 1) = bottomCell m a2 f := by
        simp [bottomCell, hget, hand2, hor2]
      rw [hbot]
      obtain ⟨hle, bc, hgetB, hbcand, hbcor, c3', hget3, hop3, hchain3⟩ :=
        ih m a2 c3 f hget2 hrest2 hf2
      have haB : a ≠ bottomCell m a2 f := by omega
      have ha : a < m.cells.length := Mem.get_lt hget
      refine ⟨by omega, bc, hgetB, hbcand, hbcor, c2, ?_, rfl, ?_⟩
      · rw [Mem.get_set_ne _ _ _ _ (Ne.symm haB), Mem.get_push _ _ _ ha]
        exact hget
      · simp only [List.cons_append]
        exact ⟨a2, c3', by omega, hget3, hop3.trans hop2, hor2, hand2, hchain3⟩
    · -- and-link from c2 to the next node
      obtain ⟨a2, c3, hlo2, hget2, hop2, hand2, hor2, hrest2⟩ := hrep
      have hbot : bottomCell m a (f + 1) = bottomCell m a2 f := by
        simp [bottomCell, hget, hand2]
      rw [hbot]
      obtain ⟨hle, bc, hgetB, hbcand, hbcor, c3', hget3, hop3, hchain3⟩ :=
        ih m a2 c3 f hget2 hrest2 hf2
      have haB : a ≠ bottomCell m a2 f := by omega
      have ha : a < m.cells.length := Mem.get_lt hget
      refine ⟨by omega, bc, hgetB, hbcand, hbcor, c2, ?_, rfl, ?_⟩
      · rw [Mem.get_set_ne _ _ _ _ (Ne.symm haB), Mem.get_push _ _ _ ha]
        exact hget
      · simp only [List.cons_append]
        exact ⟨a2, c3', by omega, hget3, hop3.trans hop2, hand2, hor2, hchain3⟩

/-- A non-empty chain root stays a chain root when appended to:
`appendToFieldOperationTree` succeeds and the represented chain grows by
exactly the appended element. -/
theorem appendToFieldOperationTree_spec
    (m : Mem) (c : fieldOperationTree) (br : Bool) (op : FieldOperation)
    (ps : List (Bool × FieldOperation)) (lo : Nat)
    (hne : c.eqEmpty = false) (hrep : chainRep m c lo ps) (hlo : lo ≤ m.cells.length) :
    ∃ m' c', appendToFieldOperationTree m c br op = .ok (m', c') ∧
      c'.op = c.op ∧ chainRep m' c' lo (ps ++ [(br, op)]) := by
  cases ps with
  | nil =>
    have hrep' : c.and = none ∧ c.or = none := hrep
    obtain ⟨hand, hor⟩ := hrep'
    refine ⟨⟨m.cells ++ [⟨op, none, none⟩]⟩, setChild c br m.cells.length, ?_,
      setChild_op c br m.cells.length, ?_⟩
    · simp [appendToFieldOperationTree, hne, hand, hor, Mem.alloc]
    · cases br with
      | false =>
        exact ⟨m.cells.length, ⟨op, none, none⟩, hlo, Mem.get_push_last m _, rfl,
          by simp [setChild], by simp [setChild, hand], by exact ⟨rfl, rfl⟩⟩
      | true =>
        exact ⟨m.cells.length, ⟨op, none, none⟩, hlo, Mem.get_push_last m _, rfl,
          by simp [setChild], by simp [setChild, hor], by exact ⟨rfl, rfl⟩⟩
  | cons p rest =>
    obtain ⟨br2, op2⟩ := p
    cases br2 with
    | true =>
      obtain ⟨a2, c3, hlo2, hget2, hop2, hand2, hor2, hrest⟩ := hrep
      have hlen : rest.length < m.cells.length := by
        have h1 := chainRep_length rest m c3 (a2 + 1) hrest
        have h2 : a2 < m.cells.length := Mem.get_lt hget2
        omega
      obtain ⟨hle, bc, hgetB, hbcand, hbcor, c2', hget', hop', hchain'⟩ :=
        bottom_append br op rest m a2 c3 m.cells.length hget2 hrest hlen
      refine ⟨Mem.set ⟨m.cells ++ [⟨op, none, none⟩]⟩ (bottomCell m a2 m.cells.length)
          (setChild bc br m.cells.length), c, ?_, rfl, ?_⟩
      · simp [appendToFieldOperationTree, hne, hand2, Mem.alloc, hgetB]
      · simp only [List.cons_append]
        exact ⟨a2, c2', hlo2, hget', hop'.trans hop2, hand2, hor2, hchain'⟩
    | false =>
      obtain ⟨a2, c3, hlo2, hget2, hop2, hor2, hand2, hrest⟩ := hrep
      have hlen : rest.length < m.cells.length := by
        have h1 := chainRep_length rest m c3 (a2 + 1) hrest
        have h2 : a2 < m.cells.length := Mem.get_lt hget2
        omega
      obtain ⟨hle, bc, hgetB, hbcand, hbcor, c2', hget', hop', hchain'⟩ :=
        bottom_append br op rest m a2 c3 m.cells.length hget2 hrest hlen
      refine ⟨Mem.set ⟨m.cells ++ [⟨op, none, none⟩]⟩ (bottomCell m a2 m.cells.length)
          (setChild bc br m.cells.length), c, ?_, rfl, ?_⟩
      · simp [appendToFieldOperationTree, hne, hand2, hor2, Mem.alloc, hgetB]
      · simp only [List.cons_append]
        exact ⟨a2, c2', hlo2, hget', hop'.trans hop2, hor2, hand2, hchain'⟩

/-- One `And`/`Or` call preserves the invariant, extending the chain. -/
theorem SelChain_step (rt : RecordType) (op0 : FieldOperation) (hz : op0.isZero = false)
    (m : Mem) (b : SelectBuilder) (ps : List (Bool × FieldOperation))
    (br : Bool) (op : FieldOperation) (h : SelChain rt op0 m b ps) :
    SelChain rt op0 (if br then b.And m op else b.Or m op).1
      (if br then b.And m op else b.Or m op).2 (ps ++ [(br, op)]) := by
  obtain ⟨h1, h2, h3, h4, h5, h6⟩ := h
  have hne : b.fieldOperationTree.eqEmpty = false := by
    simp [fieldOperationTree.eqEmpty, h5, hz]
  obtain ⟨m', c', happ, hop, hchain⟩ :=
    appendToFieldOperationTree_spec m b.fieldOperationTree br op ps 0 hne h6 (Nat.zero_le _)
  cases br with
  | true =>
    simp only [if_true, SelectBuilder.And, happ]
    exact ⟨h1, h2, h3, h4, hop.trans h5, hchain⟩
  | false =>
    simp only [if_false, SelectBuilder.Or, happ]
    exact ⟨h1, h2, h3, h4, hop.trans h5, hchain⟩

/-- Running a whole call list preserves the invariant. -/
theorem applySelCalls_spec (rt : RecordType) (op0 : FieldOperation) (hz : op0.isZero = false) :
    ∀ (calls : List (Bool × FieldOperation)) (m : Mem) (b : SelectBuilder)
      (ps : List (Bool × FieldOperation)),
      SelChain rt op0 m b ps →
      SelChain rt op0 (applySelCalls m b calls).1 (applySelCalls m b calls).2 (ps ++ calls) := by
  intro calls
  induction calls with
  | nil => intro m b ps h; simpa [applySelCalls] using h
  | cons p rest ih =>
    intro m b ps h
    obtain ⟨br, op⟩ := p
    have hstep := SelChain_step rt op0 hz m b ps br op h
    have hrec := ih (if br then b.And m op else b.Or m op).1
      (if br then b.And m op else b.Or m op).2 (ps ++ [(br, op)]) hstep
    simp only [applySelCalls]
    have hl : (ps ++ [(br, op)]) ++ rest = ps ++ ((br, op) :: rest) := by simp
    rw [hl] at hrec
    exact hrec

/-- A builder satisfying the invariant renders its chain: the query is
the projection and table followed by the per-call WHERE fragment, and
the arguments are the per-call arguments, in order. -/
theorem selBuild_of_chain (rt : RecordType) (op0 : FieldOperation) (hz : op0.isZero = false)
    (m : Mem) (b : SelectBuilder) (ps : List (Bool × FieldOperation))
    (h : SelChain rt op0 m b ps) :
    b.BuildQuery m =
      ("SELECT " ++ selectFields rt ++ " FROM " ++ ("\"" ++ rt.name ++ "\"") ++
         (renderedChain op0 ps).1 ++ ";",
       (renderedChain op0 ps).2, none) := by
  obtain ⟨h1, h2, h3, h4, h5, h6⟩ := h
  have hne : b.fieldOperationTree.eqEmpty = false := by
    simp [fieldOperationTree.eqEmpty, h5, hz]
  have hfuel : ps.length ≤ m.cells.length + 1 := by
    have := chainRep_length ps m b.fieldOperationTree 0 h6
    omega
  have hrender := renderFrom_spec ps m b.fieldOperationTree 0 (m.cells.length + 1) h6 hfuel
  have hbq : b.fieldOperationTree.buildQuery m =
      (" WHERE " ++ (op0.queryData).1 ++ (tailRender ps).1,
       (op0.queryData).2 ++ (tailRender ps).2) := by
    simp only [fieldOperationTree.buildQuery, hne, Bool.false_eq_true, if_false, hrender, h5]
  simp only [SelectBuilder.BuildQuery, h4, h3, h2, h1, hbq, renderedChain]
  simp [tableNameString, String.append_empty]

/-- C1: for every record type and every chain of one `Where` call (with a
predicate that is not the zero value, i.e. one that actually sets the
root) followed by any sequence of `And`/`Or` calls, `BuildQuery` renders
a WHERE fragment with exactly one rendered predicate per call, in call
order, with the argument lists concatenated in the same order
(`renderedChain` spells out that per-call shape). -/
theorem c1_predicate_chain_renders_in_call_order (rt : RecordType) (m : Mem)
    (op0 : FieldOperation) (calls : List (Bool × FieldOperation))
    (hz : op0.isZero = false) :
    (applySelCalls m ((Select rt).Where op0) calls).2.BuildQuery
      (applySelCalls m ((Select rt).Where op0) calls).1 =
    ("SELECT " ++ selectFields rt ++ " FROM " ++ ("\"" ++ rt.name ++ "\"") ++
       (renderedChain op0 calls).1 ++ ";",
     (renderedChain op0 calls).2, none) := by
  have hinit : SelChain rt op0 m ((Select rt).Where op0) [] :=
    ⟨rfl, rfl, rfl, rfl, rfl, rfl, rfl⟩
  have hfin := applySelCalls_spec rt op0 hz calls m ((Select rt).Where op0) [] hinit
  rw [List.nil_append] at hfin
  exact selBuild_of_chain rt op0 hz _ _ _ hfin

/-- Witness for C1 at a concrete record type, root predicate and two
appended calls. -/
theorem c1_witness :
    (applySelCalls ⟨[]⟩ ((Select ⟨"bunny", [⟨"Name", none, true⟩]⟩).Where
        (GreaterThan "EarLength" (Value.vInt 10)))
        [(true, NotEqual "Name" (Value.vStr "")), (false, Equal "Name" (Value.vStr "ollie"))]).2.BuildQuery
      (applySelCalls ⟨[]⟩ ((Select ⟨"bunny", [⟨"Name", none, true⟩]⟩).Where
        (GreaterThan "EarLength" (Value.vInt 10)))
        [(true, NotEqual "Name" (Value.vStr "")), (false, Equal "Name" (Value.vStr "ollie"))]).1 =
    ("SELECT \"Name\" FROM \"bunny\" WHERE \"EarLength\" > ? AND \"Name\" <> ? OR \"Name\" = ?;",
     [Value.vInt 10, Value.vStr "", Value.vStr "ollie"], none) :=
  c1_predicate_chain_renders_in_call_order ⟨"bunny", [⟨"Name", none, true⟩]⟩ ⟨[]⟩
    (GreaterThan "EarLength" (Value.vInt 10))
    [(true, NotEqual "Name" (Value.vStr "")), (false, Equal "Name" (Value.vStr "ollie"))] rfl

/-- C2: a builder whose chain already holds two predicates is NOT left
unchanged by a further `And`/`Or` on it: the appended node is written
into the shared bottom cell, so after the branching call the base
builder renders the appended predicate too.  The first conjunct is the
base builder before the branch, the second is the same builder value
after it, and they differ. -/
theorem c2_branching_mutates_base_builder :
    (c2base.2.BuildQuery c2base.1).1 =
      "SELECT \"Name\" FROM \"bunny\" WHERE \"A\" = ? AND \"B\" = ?;" ∧
    (c2base.2.BuildQuery c2branch.1).1 =
      "SELECT \"Name\" FROM \"bunny\" WHERE \"A\" = ? AND \"B\" = ? OR \"C\" = ?;" ∧
    (c2base.2.BuildQuery c2branch.1).1 ≠ (c2base.2.BuildQuery c2base.1).1 ∧
    (c2base.2.BuildQuery c2branch.1).2.1 = [Value.vInt 1, Value.vInt 2, Value.vInt 3] :=
  ⟨rfl, rfl, by decide, rfl⟩

/-- C3 counterexample: Where-twice records DoubleWhereClause, but a later
From with an invalid name overwrites it, so the terminal BuildQuery
returns the later error, not the first one. -/
theorem c3_counterexample_later_error_returned :
    ((((Select bunnyRT).Where (IsTrue "Name")).Where (IsTrue "Name")).From "").err =
      some (QubrError.ErrInvalidTableName "") ∧
    (((((Select bunnyRT).Where (IsTrue "Name")).Where (IsTrue "Name")).From
        "").BuildQuery ⟨[]⟩).2.2 ≠ some QubrError.ErrDoubleWhereClause :=
  ⟨rfl, by decide⟩

/-- C3 amended: fluent calls never consult the deferred error.  A later
offending call overwrites it (BuildQuery then reports the latest
recorded error), and later calls whose own precondition holds still
mutate state: a Where on an error-carrying builder with an empty tree
sets the root, and SetStruct always stores its record. -/
theorem c3_amended_later_calls_still_run (b : SelectBuilder) (ub : UpdateBuilder)
    (op : FieldOperation) (v : List Value) (e e2 : QubrError) (m : Mem)
    (hb : b.err = some e) (hu : ub.err = some e2) :
    (b.fieldOperationTree.eqEmpty = false →
      (b.Where op).err = some QubrError.ErrDoubleWhereClause ∧
      ((b.Where op).BuildQuery m).2.2 = some QubrError.ErrDoubleWhereClause) ∧
    (b.fieldOperationTree.eqEmpty = true →
      (b.Where op).fieldOperationTree.op = op ∧ (b.Where op).err = some e) ∧
    (ub.SetStruct v).literalValue = some v := by
  refine ⟨fun hne => ?_, fun he => ?_, rfl⟩
  · constructor
    · simp [SelectBuilder.Where, hne]
    · simp [SelectBuilder.Where, hne, SelectBuilder.BuildQuery]
  · constructor
    · simp [SelectBuilder.Where, he]
    · simp [SelectBuilder.Where, he, hb]

/-- Witness for the amended C3 at concrete inputs. -/
theorem c3_witness :
    ((((Select bunnyRT).Where (IsTrue "A")).Where (IsTrue "A")).Where (IsTrue "B")).err =
      some QubrError.ErrDoubleWhereClause ∧
    (((Update bunnyRT).Into "a.b.c").SetStruct [Value.vInt 1]).literalValue =
      some [Value.vInt 1] := by
  have h := c3_amended_later_calls_still_run
    (((Select bunnyRT).Where (IsTrue "A")).Where (IsTrue "A"))
    ((Update bunnyRT).Into "a.b.c") (IsTrue "B") [Value.vInt 1]
    QubrError.ErrDoubleWhereClause (QubrError.ErrInvalidTableName "a.b.c") ⟨[]⟩ rfl rfl
  exact ⟨(h.1 rfl).1, h.2.2⟩

/-- C4 counterexample: a non-IN operator given a []any value takes the
parenthesized branch: two placeholders and two arguments, not one
placeholder with the collection as the single argument. -/
theorem c4_counterexample_collection_not_single_arg :
    (Equal "f" (Value.vArr [Value.vInt 1, Value.vInt 2])).queryData.1 = "\"f\" = (?, ?)" ∧
    (Equal "f" (Value.vArr [Value.vInt 1, Value.vInt 2])).queryData.2.length = 2 :=
  ⟨rfl, rfl⟩

/-- C4 amended: for a non-IN/NOT IN operator whose value is NOT a []any
slice, rendering yields exactly one placeholder and the raw value as the
single argument; []any values are special-cased for every operator. -/
theorem c4_scalar_value_single_placeholder (op : Operator) (fld : String) (v : Value)
    (h1 : op ≠ Operator.operatorIn) (h2 : op ≠ Operator.operatorNotIn)
    (h3 : v.isArr = false) :
    (FieldOperation.mk op fld v).queryData =
      ("\"" ++ fld ++ "\" " ++ op.String ++ " " ++ "?", [v]) := by
  simp [FieldOperation.queryData, h1, h2, h3]

/-- Witness for the amended C4. -/
theorem c4_witness :
    (GreaterThan "EarLength" (Value.vInt 10)).queryData = ("\"EarLength\" > ?", [Value.vInt 10]) :=
  c4_scalar_value_single_placeholder Operator.operatorGreaterThan "EarLength" (Value.vInt 10)
    (by decide) (by decide) rfl

/-- C10: an IN/NOT IN predicate whose value holds no elements (an empty
[]any, or any value that is not a []any at all, for which the type
assertion yields the nil slice) renders the empty group with zero
placeholders and zero arguments, and recording it with Where raises no
error. -/
theorem c10_in_empty_renders_empty_group (op : Operator) (fld : String) (v : Value)
    (rt : RecordType)
    (hop : op = Operator.operatorIn ∨ op = Operator.operatorNotIn)
    (hv : v.arrElems = []) :
    (FieldOperation.mk op fld v).queryData =
      ("\"" ++ fld ++ "\" " ++ op.String ++ " " ++ "()", []) ∧
    ((Select rt).Where (FieldOperation.mk op fld v)).err = none := by
  constructor
  · rcases hop with h | h <;> subst h <;>
      simp [FieldOperation.queryData, hv, strRepeat, trimSuffix]
  · rfl

/-- Witness for C10 at the `In` constructor with no values. -/
theorem c10_witness :
    (In "Food" []).queryData = ("\"Food\" IN ()", []) ∧
    ((Select bunnyRT).Where (In "Food" [])).err = none :=
  c10_in_empty_renders_empty_group Operator.operatorIn "Food" (Value.vArr []) bunnyRT
    (Or.inl rfl) rfl

/-- C5: the empty-payload half holds (NoInsertValues with no text and no
args), but the argument extraction reads fields by raw index below the
exported count: with an unexported field declared before the exported
one, the single argument is the unexported field value, not the mappable
column value (in Go this reflect access panics). -/
theorem c5_insert_args_taken_by_raw_index :
    (Insert' c5rt).BuildQuery = ("", [], some QubrError.ErrNoInsertValues) ∧
    ((Insert' c5rt).Values [[Value.vInt 7, Value.vStr "oliver"]]).BuildQuery =
      ("INSERT INTO \"bunny\" VALUES (?);", [Value.vInt 7], none) ∧
    [Value.vInt 7] ≠ [Value.vStr "oliver"] := by
  refine ⟨rfl, rfl, fun h => ?_⟩
  injection h with h1 _
  exact Value.noConfusion h1

/-- C6 counterexample: the Select projection renders the field name even
though a db-tag override is present. -/
theorem c6_counterexample_select_ignores_tag :
    ((Select c6rt).BuildQuery ⟨[]⟩).1 = "SELECT \"X\" FROM \"T\";" ∧
    ((Select c6rt).BuildQuery ⟨[]⟩).1 ≠ "SELECT \"y\" FROM \"T\";" :=
  ⟨rfl, by decide⟩

/-- C6 amended: the Update SET clause resolves each column name through
the db-tag override when present (field name otherwise), while the
Select projection always uses the field name itself, even when an
override is present. -/
theorem c6_amended_update_uses_tag_select_uses_name
    (tname nm1 nm2 tag : String) (v1 v2 : Value) :
    ((Update ⟨tname, [⟨nm1, some tag, true⟩, ⟨nm2, none, true⟩]⟩).SetStruct
        [v1, v2]).BuildQuery ⟨[]⟩ =
      ("UPDATE " ++ ("\"" ++ tname ++ "\"") ++
         ((" SET " ++ ("\"" ++ tag ++ "\" = ?, ")) ++ ("\"" ++ nm2 ++ "\" = ?")) ++ ";",
       [v1, v2], none) ∧
    (Select ⟨tname, [⟨nm1, some tag, true⟩, ⟨nm2, none, true⟩]⟩).BuildQuery ⟨[]⟩ =
      ("SELECT " ++ (("\"" ++ nm1 ++ "\", ") ++ ("\"" ++ nm2 ++ "\"")) ++ " FROM " ++
         ("\"" ++ tname ++ "\"") ++ ";",
       [], none) := by
  constructor
  · have hsplit : ("\"" ++ nm2 ++ "\" = ?, ") = ("\"" ++ nm2 ++ "\" = ?") ++ ", " := by
      conv_rhs => rw [String.append_assoc]
      rfl
    have hstep : ((Update ⟨tname, [⟨nm1, some tag, true⟩, ⟨nm2, none, true⟩]⟩).SetStruct
        [v1, v2]).BuildQuery ⟨[]⟩ =
        ("UPDATE " ++ ("\"" ++ tname ++ "\"") ++
           trimSuffix ((" SET " ++ ("\"" ++ tag ++ "\" = ?, ")) ++
             ("\"" ++ nm2 ++ "\" = ?, ")) ", " ++ "" ++ ";",
         [v1, v2], none) := rfl
    rw [hstep, hsplit,
      ← String.append_assoc (" SET " ++ ("\"" ++ tag ++ "\" = ?, ")) ("\"" ++ nm2 ++ "\" = ?") ", ",
      trimSuffix_append, String.append_empty]
  · have hsplit : ("\"" ++ nm2 ++ "\", ") = ("\"" ++ nm2 ++ "\"") ++ ", " := by
      conv_rhs => rw [String.append_assoc]
      rfl
    have hstep : (Select ⟨tname, [⟨nm1, some tag, true⟩, ⟨nm2, none, true⟩]⟩).BuildQuery ⟨[]⟩ =
        ("SELECT " ++
           trimSuffix (("\"" ++ nm1 ++ "\", ") ++ ("\"" ++ nm2 ++ "\", ")) ", " ++
           " FROM " ++ ("\"" ++ tname ++ "\"") ++ "" ++ "" ++ ";",
         [], none) := rfl
    rw [hstep, hsplit,
      ← String.append_assoc ("\"" ++ nm1 ++ "\", ") ("\"" ++ nm2 ++ "\"") ", ",
      trimSuffix_append, String.append_empty, String.append_empty]

/-- C7: a second From after a schema-less explicit name silently replaces
the table name with no error recorded; TableNameAlreadySet only fires
when the first explicit name carried a schema qualifier. -/
theorem c7_second_from_replaces_schemaless_name :
    (((Select bunnyRT).From "bunnies").From "rabbits").err = none ∧
    (((Select bunnyRT).From "bunnies").From "rabbits").fromT.tableName = "rabbits" ∧
    ((((Select bunnyRT).From "bunnies").From "rabbits").BuildQuery ⟨[]⟩).1 =
      "SELECT \"Name\", \"EarLength\" FROM \"rabbits\";" ∧
    (((Select bunnyRT).From "bunny_land.bunnies").From "rabbits").err =
      some QubrError.ErrTableNameAlreadySet :=
  ⟨rfl, rfl, rfl, rfl⟩

/-- C8: for Select and Delete builders with no deferred error and a limit
set, BuildQuery appends the trailing LIMIT placeholder before the
semicolon with the limit value as the final argument after all WHERE
arguments; and a second Limit call always records LimitAlreadySet. -/
theorem c8_limit_last_arg_and_double_limit (m : Mem) (b : SelectBuilder) (d : DeleteBuilder)
    (n k n1 n2 : Nat)
    (hbe : b.err = none) (hbl : b.limit = some n)
    (hde : d.err = none) (hdl : d.limit = some k) :
    b.BuildQuery m =
      ("SELECT " ++ selectFields b.rt ++ " FROM " ++ tableNameString b.fromT ++
         (b.fieldOperationTree.buildQuery m).1 ++ " LIMIT ?" ++ ";",
       (b.fieldOperationTree.buildQuery m).2 ++ [Value.vNat n], none) ∧
    (b.BuildQuery m).2.1.getLast? = some (Value.vNat n) ∧
    d.BuildQuery m =
      ("DELETE FROM " ++ tableNameString d.fromT ++
         (d.fieldOperationTree.buildQuery m).1 ++ " LIMIT ?" ++ ";",
       (d.fieldOperationTree.buildQuery m).2 ++ [Value.vNat k], none) ∧
    (d.BuildQuery m).2.1.getLast? = some (Value.vNat k) ∧
    (∀ x : SelectBuilder, ((x.Limit n1).Limit n2).err = some QubrError.ErrLimitAlreadySet) ∧
    (∀ y : DeleteBuilder, ((y.Limit n1).Limit n2).err = some QubrError.ErrLimitAlreadySet) := by
  have hb : b.BuildQuery m =
      ("SELECT " ++ selectFields b.rt ++ " FROM " ++ tableNameString b.fromT ++
         (b.fieldOperationTree.buildQuery m).1 ++ " LIMIT ?" ++ ";",
       (b.fieldOperationTree.buildQuery m).2 ++ [Value.vNat n], none) := by
    simp [SelectBuilder.BuildQuery, hbe, hbl]
  have hd : d.BuildQuery m =
      ("DELETE FROM " ++ tableNameString d.fromT ++
         (d.fieldOperationTree.buildQuery m).1 ++ " LIMIT ?" ++ ";",
       (d.fieldOperationTree.buildQuery m).2 ++ [Value.vNat k], none) := by
    simp [DeleteBuilder.BuildQuery, hde, hdl]
  refine ⟨hb, ?_, hd, ?_, ?_, ?_⟩
  · rw [hb]; exact List.getLast?_concat _
  · rw [hd]; exact List.getLast?_concat _
  · intro x
    cases hx : x.limit <;> simp [SelectBuilder.Limit, hx]
  · intro y
    cases hy : y.limit <;> simp [DeleteBuilder.Limit, hy]

/-- Witness for C8 at concrete builders. -/
theorem c8_witness :
    ((Select bunnyRT).Limit 5).BuildQuery ⟨[]⟩ =
      ("SELECT \"Name\", \"EarLength\" FROM \"bunny\" LIMIT ?;", [Value.vNat 5], none) ∧
    ((Delete bunnyRT).Limit 7).BuildQuery ⟨[]⟩ =
      ("DELETE FROM \"bunny\" LIMIT ?;", [Value.vNat 7], none) ∧
    (((Select bunnyRT).Limit 5).Limit 6).err = some QubrError.ErrLimitAlreadySet := by
  have h := c8_limit_last_arg_and_double_limit ⟨[]⟩ ((Select bunnyRT).Limit 5)
    ((Delete bunnyRT).Limit 7) 5 7 5 6 rfl rfl rfl rfl
  exact ⟨h.1, h.2.2.1, h.2.2.2.2.1 (Select bunnyRT)⟩

/-- C9: whenever any of the four BuildQuery variants reports an error,
the returned query text and argument list are both empty. -/
theorem c9_error_returns_empty_query (m : Mem) (sb : SelectBuilder) (db : DeleteBuilder)
    (ub : UpdateBuilder) (ib : InsertBuilder) :
    ((sb.BuildQuery m).2.2 ≠ none → (sb.BuildQuery m).1 = "" ∧ (sb.BuildQuery m).2.1 = []) ∧
    ((db.BuildQuery m).2.2 ≠ none → (db.BuildQuery m).1 = "" ∧ (db.BuildQuery m).2.1 = []) ∧
    ((ub.BuildQuery m).2.2 ≠ none → (ub.BuildQuery m).1 = "" ∧ (ub.BuildQuery m).2.1 = []) ∧
    ((ib.BuildQuery).2.2 ≠ none → (ib.BuildQuery).1 = "" ∧ (ib.BuildQuery).2.1 = []) := by
  refine ⟨?_, ?_, ?_, ?_⟩
  · cases hse : sb.err with
    | some e => intro _; simp [SelectBuilder.BuildQuery, hse]
    | none => intro h; exact absurd (by simp [SelectBuilder.BuildQuery, hse]) h
  · cases hde : db.err with
    | some e => intro _; simp [DeleteBuilder.BuildQuery, hde]
    | none => intro h; exact absurd (by simp [DeleteBuilder.BuildQuery, hde]) h
  · cases hue : ub.err with
    | some e => intro _; simp [UpdateBuilder.BuildQuery, hue]
    | none =>
      cases hul : ub.literalValue with
      | none => intro _; simp [UpdateBuilder.BuildQuery, hue, hul]
      | some vals => intro h; exact absurd (by simp [UpdateBuilder.BuildQuery, hue, hul]) h
  · cases hie : ib.err with
    | some e => intro _; simp [InsertBuilder.BuildQuery, hie]
    | none =>
      by_cases hlen : ib.literalValues.length = 0
      · intro _; simp [InsertBuilder.BuildQuery, hie, hlen]
      · intro h; exact absurd (by simp [InsertBuilder.BuildQuery, hie, hlen]) h

/-- Witness for C9 at four concrete erroring builders. -/
theorem c9_witness :
    ((((Select bunnyRT).Limit 1).Limit 2).BuildQuery ⟨[]⟩).1 = "" ∧
    ((((Select bunnyRT).Limit 1).Limit 2).BuildQuery ⟨[]⟩).2.1 = [] ∧
    ((((Delete bunnyRT).Where (IsTrue "A")).Where (IsTrue "A")).BuildQuery ⟨[]⟩).1 = "" ∧
    (((Update bunnyRT).BuildQuery ⟨[]⟩).1 = "" ∧ ((Update bunnyRT).BuildQuery ⟨[]⟩).2.1 = []) ∧
    ((Insert' bunnyRT).BuildQuery.1 = "" ∧ (Insert' bunnyRT).BuildQuery.2.1 = []) := by
  have h := c9_error_returns_empty_query ⟨[]⟩ (((Select bunnyRT).Limit 1).Limit 2)
    (((Delete bunnyRT).Where (IsTrue "A")).Where (IsTrue "A")) (Update bunnyRT) (Insert' bunnyRT)
  exact ⟨(h.1 (by decide)).1, (h.1 (by decide)).2, (h.2.1 (by decide)).1,
    h.2.2.1 (by decide), h.2.2.2 (by decide)⟩
